import Mathlib

/-
Verification of the static-site generator in this repository.

The repository has two components:
* build.py — the Template Compositor: reads a template file, finds the line
  containing the marker token `{{content}}`, and for each file in the content
  directory writes template-prefix ++ fragment ++ template-suffix to a
  derived output path.
* watch.py — the Change Watcher: a filesystem-event handler around build().

We model text as lists of characters (a Line is the list of characters of one
line, newline terminator included, exactly as Python readlines yields it), a
document as a list of lines, and the filesystem as an association list from
paths to documents together with the set of existing directories and the set
of paths on which a write raises an I/O error (the environment's choice).
-/

abbrev Line : Type := List Char
abbrev Doc : Type := List Line
abbrev FPath : Type := List Char

/-- build.py line 3: `CONTENT_KEY = '{{content}}'`. -/
def CONTENT_KEY : List Char := "\x7b\x7bcontent\x7d\x7d".toList

/-- build.py line 4: `TEMPLATE_FILE = './content/base.html'`. -/
def TEMPLATE_FILE : FPath := "./content/base.html".toList

/-- build.py line 5: `BUILD_DIR = './build/'`. -/
def BUILD_DIR : FPath := "./build/".toList

/-- build.py line 6: `CONTENT_DIR = './content/pages/'`. -/
def CONTENT_DIR : FPath := "./content/pages/".toList

/-- build.py line 7: `INDEX_DIR = './'`. -/
def INDEX_DIR : FPath := "./".toList

/-- Python's substring test `key in line`, on characters. -/
def hasSubstr (key : List Char) : List Char → Bool
  | [] => key.isEmpty
  | c :: t => (key.isPrefixOf (c :: t)) || hasSubstr key t

/-- build.py lines 13-16: the scan
`for i, line in enumerate(template): if CONTENT_KEY in line: content_index = i`
threaded through loop counter `i` and accumulator `content_index`
(initially None); the accumulator keeps the index of the LAST line that
contains the key. -/
def scanLoop (key : List Char) : Nat → Option Nat → Doc → Option Nat
  | _, acc, [] => acc
  | i, acc, line :: rest =>
      scanLoop key (i + 1) (if hasSubstr key line then some i else acc) rest

/-- The value of `content_index` after the scan loop of build.py lines 13-16. -/
def findContentIdx (template : Doc) : Option Nat :=
  scanLoop CONTENT_KEY 0 none template

/-- build.py lines 34-36: `template[:content_index] + contents + template[content_index+1:]`. -/
def splice (template : Doc) (ci : Nat) (contents : Doc) : Doc :=
  template.take ci ++ contents ++ template.drop (ci + 1)

/-- build.py line 31:
`output_path = f'{INDEX_DIR}{page}' if page == 'index.html' else f'{BUILD_DIR}{page}'`. -/
def outPath (page : FPath) : FPath :=
  if page = "index.html".toList then INDEX_DIR ++ page else BUILD_DIR ++ page

/-- build.py line 19: the message
`f'{TEMPLATE_FILE} must contain "{CONTENT_KEY}"'` printed when the marker is
missing, just before `exit(1)`. -/
def missingMarkerMsg : List Char :=
  TEMPLATE_FILE ++ " must contain \"".toList ++ CONTENT_KEY ++ "\"".toList

/-- Filesystem state: files as an association list (most recent write first),
the set of existing directories, and the set of paths where opening for
writing raises an I/O error. -/
structure FSState where
  files : List (FPath × Doc)
  dirs : List FPath
  badWrite : List FPath
deriving DecidableEq

/-- Look a path up in an association list of files; the first (most recent)
entry wins. -/
def lookupFile (p : FPath) : List (FPath × Doc) → Option Doc
  | [] => none
  | (q, d) :: rest => if q = p then some d else lookupFile p rest

/-- `os.mkdir`: raises an error when the directory already exists, otherwise
creates it. -/
def osMkdir (fs : FSState) (p : FPath) : Except Unit FSState :=
  if p ∈ fs.dirs then Except.error () else Except.ok { fs with dirs := p :: fs.dirs }

/-- build.py lines 22-25: `try: os.mkdir(BUILD_DIR) except FileExistsError: pass`. -/
def mkdirBuildDir (fs : FSState) : FSState :=
  match osMkdir fs BUILD_DIR with
  | Except.ok fs1 => fs1
  | Except.error _ => fs

/-- The outcome of a run of build.py's `build()`:
`ok` — fell off the end; `configErr msg` — printed `msg` and called `exit(1)`
(build.py lines 18-20); `ioErr p` — an uncaught I/O error was raised while
opening path `p` (for reading a fragment, or for writing an output). -/
inductive BuildResult where
  | ok : BuildResult
  | configErr : List Char → BuildResult
  | ioErr : FPath → BuildResult
deriving DecidableEq

/-- Process exit status produced by each outcome: `exit(1)` for the missing
marker, an uncaught exception (exit status 1) for an I/O error, 0 otherwise. -/
def BuildResult.exitCode : BuildResult → Nat
  | BuildResult.ok => 0
  | BuildResult.configErr _ => 1
  | BuildResult.ioErr _ => 1

/-- build.py lines 27-36: the per-page loop
`for page in os.listdir(CONTENT_DIR): open fragment; compute output_path;
open(output_path, 'w'); write spliced document`.
`pages` is the directory listing; reading a fragment fails (uncaught I/O
error) when the file is absent, writing fails when the output path is in
`badWrite`; on failure the loop aborts immediately with the state as it
stands. -/
def processPages (template : Doc) (ci : Nat) : List FPath → FSState → FSState × BuildResult
  | [], fs => (fs, BuildResult.ok)
  | page :: rest, fs =>
      match lookupFile (CONTENT_DIR ++ page) fs.files with
      | none => (fs, BuildResult.ioErr (CONTENT_DIR ++ page))
      | some contents =>
          if outPath page ∈ fs.badWrite then
            (fs, BuildResult.ioErr (outPath page))
          else
            processPages template ci rest
              { fs with files := (outPath page, splice template ci contents) :: fs.files }

/-- build.py lines 9-36, `build()`: read the template (uncaught I/O error if
absent), scan for the marker (print message and exit 1 if absent), ensure the
build directory exists, then process every page of the content-directory
listing. -/
def build (pages : List FPath) (fs : FSState) : FSState × BuildResult :=
  match lookupFile TEMPLATE_FILE fs.files with
  | none => (fs, BuildResult.ioErr TEMPLATE_FILE)
  | some template =>
      match findContentIdx template with
      | none => (fs, BuildResult.configErr missingMarkerMsg)
      | some ci => processPages template ci pages (mkdirBuildDir fs)

/-- The bytes of a document: its lines concatenated in order. -/
def docBytes (d : Doc) : List Char :=
  d.foldr (fun l acc => l ++ acc) []

/-- Does the line end with a newline character? -/
def endsNL : List Char → Bool
  | [] => false
  | [c] => c == '\n'
  | _ :: c2 :: t => endsNL (c2 :: t)

/-- Every line except possibly the last ends with a newline — the shape
Python's readlines guarantees for the line list of any real file. -/
def linesTerm : Doc → Bool
  | [] => true
  | [_] => true
  | l :: l2 :: rest => endsNL l && linesTerm (l2 :: rest)

/-- watch.py lines 12-13: the state of `BuildEventHandler` — the boolean
`locked` and the counter `files_changed_while_locked`. -/
structure WatcherState where
  locked : Bool
  files_changed_while_locked : Nat
deriving DecidableEq

/-- watch.py lines 15-23, `on_modified`, for an event during whose build (if
any) no further events arrive:
`if not self.locked:` run `build()`, print the completion summary reporting
`files_changed_while_locked`, set the counter to 0 and set `locked` to False
(the code never sets `locked` to True anywhere);
`else:` increment `files_changed_while_locked`.
Returns (new state, number of builds run, reported counts in order). -/
def onModifiedFlat (s : WatcherState) : WatcherState × Nat × List Nat :=
  if s.locked then
    ({ s with files_changed_while_locked := s.files_changed_while_locked + 1 }, 0, [])
  else
    (⟨false, 0⟩, 1, [s.files_changed_while_locked])

/-- `n` modification events delivered in sequence to `on_modified`, none of
them with further events during its own build. -/
def runFlat : WatcherState → Nat → WatcherState × Nat × List Nat
  | s, 0 => (s, 0, [])
  | s, n + 1 =>
      let r1 := onModifiedFlat s
      let r2 := runFlat r1.1 n
      (r2.1, r1.2.1 + r2.2.1, r1.2.2 ++ r2.2.2)

/-- One invocation of watch.py's `on_modified` during whose `build()` call
exactly `n` further modification events arrive and are handled. Because
`on_modified` never sets `locked` to True before calling `build()`, the inner
events are handled with the state exactly as the idle branch left it. -/
def onModifiedDuring (s : WatcherState) (n : Nat) : WatcherState × Nat × List Nat :=
  if s.locked then
    ({ s with files_changed_while_locked := s.files_changed_while_locked + 1 }, 0, [])
  else
    let inner := runFlat s n
    (⟨false, 0⟩, 1 + inner.2.1, inner.2.2 ++ [inner.1.files_changed_while_locked])

/- Concrete fixtures: a template with one marker line and three fragments,
matching the repository's own content layout. -/

def lineHtmlOpen : Line := "<html>\n".toList
def lineMarker : Line := "\x7b\x7bcontent\x7d\x7d\n".toList
def lineHtmlClose : Line := "</html>".toList
def tEx : Doc := [lineHtmlOpen, lineMarker, lineHtmlClose]
def pageA : FPath := "a.html".toList
def pageB : FPath := "b.html".toList
def pageIndex : FPath := "index.html".toList
def fragA : Doc := ["<p>hi</p>\n".toList]
def fragB : Doc := ["<p>bee</p>\n".toList]
def fragIndex : Doc := ["<p>index</p>\n".toList]
def pagesEx : List FPath := [pageA, pageB, pageIndex]

def fragEx : FPath → Doc :=
  fun pg => if pg = pageA then fragA else if pg = pageB then fragB else fragIndex

def fsEx : FSState :=
  { files := [(TEMPLATE_FILE, tEx), (CONTENT_DIR ++ pageA, fragA),
              (CONTENT_DIR ++ pageB, fragB), (CONTENT_DIR ++ pageIndex, fragIndex)],
    dirs := [], badWrite := [] }

/- Further concrete fixtures. -/

def pageM : FPath := "m.html".toList

/-- A fragment whose single line contains the marker token itself. -/
def fragM : Doc := ["\x7b\x7bcontent\x7d\x7d\n".toList]

def fsMark : FSState :=
  { files := [(TEMPLATE_FILE, tEx), (CONTENT_DIR ++ pageM, fragM)],
    dirs := [], badWrite := [] }

def lineMid : Line := "mid\n".toList
def lineEnd : Line := "end".toList
def lineX : Line := "X\n".toList

/-- A template with marker lines at indices 0 and 2. -/
def tMulti : Doc := [lineMarker, lineMid, lineMarker, lineEnd]

def fragX : Doc := [lineX]

def fsMulti : FSState :=
  { files := [(TEMPLATE_FILE, tMulti), (CONTENT_DIR ++ pageM, fragX)],
    dirs := [], badWrite := [] }

/-- A template none of whose lines contains the marker token. -/
def tNoMark : Doc := [lineHtmlOpen, lineHtmlClose]

def fsNoMark : FSState :=
  { files := [(TEMPLATE_FILE, tNoMark)], dirs := [], badWrite := [] }

/-- A content state in which the fragment for `pageB` is missing. -/
def fsFail : FSState :=
  { files := [(TEMPLATE_FILE, tEx), (CONTENT_DIR ++ pageA, fragA),
              (CONTENT_DIR ++ pageIndex, fragIndex)],
    dirs := [], badWrite := [] }

/-- Like `fsEx` but with the build directory already existing. -/
def fsDirs : FSState :=
  { files := fsEx.files, dirs := [BUILD_DIR], badWrite := [] }

/-- A marker line with surrounding text on the same line. -/
def lineDivMarker : Line := "<div>\x7b\x7bcontent\x7d\x7d</div>\n".toList

def divTemplate : Doc := [lineHtmlOpen, lineDivMarker, lineHtmlClose]

def divTag : List Char := "<div>".toList
def divTagClose : List Char := "</div>".toList

def fsDiv : FSState :=
  { files := [(TEMPLATE_FILE, divTemplate), (CONTENT_DIR ++ pageA, fragA)],
    dirs := [], badWrite := [] }

/-- A fragment file without a final newline: its single line has no newline
terminator, so in the written bytes it runs straight into the template
suffix. No line of it contains the marker token. -/
def fragSpan : Doc := ["\x7b\x7bcont".toList]

/-- The template line that follows the marker line in `tSpan`. -/
def lineSpanEnd : Line := "ent\x7d\x7d".toList

/-- Template `{{content}}\n` / `ent}}`: one marker line, then a suffix line
that completes the marker when glued to a non-terminated fragment line. -/
def tSpan : Doc := [lineMarker, lineSpanEnd]

def fsSpan : FSState :=
  { files := [(TEMPLATE_FILE, tSpan), (CONTENT_DIR ++ pageM, fragSpan)],
    dirs := [], badWrite := [] }


/- List, lookup and path helper lemmas. -/

theorem take_append_le {α : Type} : ∀ (n : Nat) (u v : List α), n ≤ u.length →
    (u ++ v).take n = u.take n := by
  intro n
  induction n with
  | zero => intro u v _; simp
  | succ m ih =>
    intro u v h
    cases u with
    | nil => simp at h
    | cons a u2 =>
      simp only [List.cons_append, List.take_succ_cons]
      rw [ih u2 v (Nat.le_of_succ_le_succ h)]

theorem drop_append_add {α : Type} : ∀ (u w : List α) (m : Nat),
    (u ++ w).drop (u.length + m) = w.drop m := by
  intro u
  induction u with
  | nil => intro w m; simp
  | cons a u2 ih =>
    intro w m
    have hn : (a :: u2).length + m = (u2.length + m) + 1 := by
      simp [List.length_cons]; omega
    rw [hn, List.cons_append, List.drop_succ_cons, ih]

theorem contentPath_ne_outPath (q page : FPath) : CONTENT_DIR ++ q ≠ outPath page := by
  intro h
  unfold outPath at h
  by_cases hp : page = "index.html".toList
  · rw [if_pos hp, hp] at h
    have h3 := congrArg (List.take 3) h
    rw [take_append_le 3 CONTENT_DIR q (by decide)] at h3
    exact absurd h3 (by decide)
  · rw [if_neg hp] at h
    have h3 := congrArg (List.take 3) h
    rw [take_append_le 3 CONTENT_DIR q (by decide),
        take_append_le 3 BUILD_DIR page (by decide)] at h3
    exact absurd h3 (by decide)

theorem templatePath_ne_outPath (page : FPath) : TEMPLATE_FILE ≠ outPath page := by
  intro h
  unfold outPath at h
  by_cases hp : page = "index.html".toList
  · rw [if_pos hp, hp] at h
    exact absurd h (by decide)
  · rw [if_neg hp] at h
    have h3 := congrArg (List.take 3) h
    rw [take_append_le 3 BUILD_DIR page (by decide)] at h3
    exact absurd h3 (by decide)

theorem outPath_inj {p q : FPath} (h : outPath p = outPath q) : p = q := by
  unfold outPath at h
  by_cases hp : p = "index.html".toList <;> by_cases hq : q = "index.html".toList
  · rw [hp, hq]
  · rw [if_pos hp, if_neg hq, hp] at h
    have h3 := congrArg (List.take 3) h
    rw [take_append_le 3 BUILD_DIR q (by decide)] at h3
    exact absurd h3 (by decide)
  · rw [if_neg hp, if_pos hq, hq] at h
    have h3 := congrArg (List.take 3) h
    rw [take_append_le 3 BUILD_DIR p (by decide)] at h3
    exact absurd h3 (by decide)
  · rw [if_neg hp, if_neg hq] at h
    exact List.append_cancel_left h

theorem lookupFile_cons_self (p : FPath) (d : Doc) (rest : List (FPath × Doc)) :
    lookupFile p ((p, d) :: rest) = some d := by
  simp [lookupFile]

theorem lookupFile_cons_ne (p q : FPath) (d : Doc) (rest : List (FPath × Doc))
    (h : q ≠ p) : lookupFile p ((q, d) :: rest) = lookupFile p rest := by
  simp [lookupFile, h]

theorem lookupFile_append (p : FPath) (A B : List (FPath × Doc)) :
    lookupFile p (A ++ B) =
      match lookupFile p A with
      | some d => some d
      | none => lookupFile p B := by
  induction A with
  | nil => simp [lookupFile]
  | cons pr rest ih =>
    obtain ⟨q, d⟩ := pr
    by_cases h : q = p
    · simp [lookupFile, h]
    · simp only [List.cons_append, lookupFile, if_neg h]
      exact ih

theorem lookupFile_eq_none (p : FPath) :
    ∀ (A : List (FPath × Doc)), (∀ pr ∈ A, pr.1 ≠ p) → lookupFile p A = none := by
  intro A
  induction A with
  | nil => intro _; rfl
  | cons pr rest ih =>
    intro h
    obtain ⟨q, d⟩ := pr
    have hq : q ≠ p := h (q, d) (List.mem_cons_self _ _)
    rw [lookupFile_cons_ne p q d rest hq]
    exact ih (fun pr2 h2 => h pr2 (List.mem_cons_of_mem _ h2))

theorem lookupFile_append_no_key (p : FPath) (A B : List (FPath × Doc))
    (h : ∀ pr ∈ A, pr.1 ≠ p) : lookupFile p (A ++ B) = lookupFile p B := by
  rw [lookupFile_append, lookupFile_eq_none p A h]

/- Marker-scan lemmas. -/

theorem scanLoop_no_marker (key : List Char) :
    ∀ (t : Doc) (i : Nat) (acc : Option Nat),
      (∀ l ∈ t, hasSubstr key l = false) → scanLoop key i acc t = acc := by
  intro t
  induction t with
  | nil => intro i acc _; rfl
  | cons line rest ih =>
    intro i acc h
    have hl : hasSubstr key line = false := h line (List.mem_cons_self _ _)
    simp only [scanLoop, hl, Bool.false_eq_true, if_false]
    exact ih (i + 1) acc (fun l h2 => h l (List.mem_cons_of_mem _ h2))

theorem scanLoop_append (key : List Char) :
    ∀ (u v : Doc) (i : Nat) (acc : Option Nat),
      scanLoop key i acc (u ++ v) = scanLoop key (i + u.length) (scanLoop key i acc u) v := by
  intro u
  induction u with
  | nil => intro v i acc; simp [scanLoop]
  | cons line rest ih =>
    intro v i acc
    simp only [List.cons_append, scanLoop, List.append_eq]
    rw [ih]
    have hn : i + 1 + rest.length = i + (line :: rest).length := by
      simp [List.length_cons]; omega
    rw [hn]

theorem findContentIdx_last (t1 : Doc) (lm : Line) (t2 : Doc)
    (hm : hasSubstr CONTENT_KEY lm = true)
    (h2 : ∀ l ∈ t2, hasSubstr CONTENT_KEY l = false) :
    findContentIdx (t1 ++ lm :: t2) = some t1.length := by
  unfold findContentIdx
  rw [scanLoop_append CONTENT_KEY t1 (lm :: t2) 0 none]
  simp only [scanLoop, hm, if_true]
  rw [scanLoop_no_marker CONTENT_KEY t2 _ _ h2]
  simp

theorem findContentIdx_of_no_marker (t : Doc)
    (h : ∀ l ∈ t, hasSubstr CONTENT_KEY l = false) : findContentIdx t = none :=
  scanLoop_no_marker CONTENT_KEY t 0 none h

theorem splice_decomp (t1 : Doc) (lm : Line) (t2 c : Doc) :
    splice (t1 ++ lm :: t2) t1.length c = t1 ++ c ++ t2 := by
  unfold splice
  have h1 : (t1 ++ lm :: t2).take t1.length = t1 := by
    rw [take_append_le t1.length t1 (lm :: t2) (Nat.le_refl _), List.take_length]
  have h2 : (t1 ++ lm :: t2).drop (t1.length + 1) = t2 := by
    rw [drop_append_add t1 (lm :: t2) 1, List.drop_succ_cons, List.drop_zero]
  rw [h1, h2]

theorem docBytes_append (a b : Doc) : docBytes (a ++ b) = docBytes a ++ docBytes b := by
  induction a with
  | nil => rfl
  | cons l rest ih =>
    simp only [List.cons_append, docBytes, List.foldr_cons] at ih ⊢
    rw [ih, List.append_assoc]

/- Filesystem-state lemmas about mkdir and the page loop. -/

theorem mkdirBuildDir_files (fs : FSState) : (mkdirBuildDir fs).files = fs.files := by
  unfold mkdirBuildDir osMkdir
  by_cases h : BUILD_DIR ∈ fs.dirs
  · simp [h]
  · simp [h]

theorem mkdirBuildDir_badWrite (fs : FSState) :
    (mkdirBuildDir fs).badWrite = fs.badWrite := by
  unfold mkdirBuildDir osMkdir
  by_cases h : BUILD_DIR ∈ fs.dirs
  · simp [h]
  · simp [h]

theorem mkdirBuildDir_mem_dirs (fs : FSState) : BUILD_DIR ∈ (mkdirBuildDir fs).dirs := by
  unfold mkdirBuildDir osMkdir
  by_cases h : BUILD_DIR ∈ fs.dirs
  · simp [h]
  · simp [h]

theorem processPages_writes (t : Doc) (ci : Nat) :
    ∀ (pages : List FPath) (fs : FSState),
      (processPages t ci pages fs).1.dirs = fs.dirs ∧
      (processPages t ci pages fs).1.badWrite = fs.badWrite ∧
      ∃ W, (processPages t ci pages fs).1.files = W ++ fs.files ∧
        ∀ pr ∈ W, ∃ page ∈ pages, pr.1 = outPath page := by
  intro pages
  induction pages with
  | nil => intro fs; exact ⟨rfl, rfl, [], rfl, by simp⟩
  | cons page rest ih =>
    intro fs
    cases hread : lookupFile (CONTENT_DIR ++ page) fs.files with
    | none =>
      simp only [processPages, hread]
      exact ⟨by simp, by simp, [], by simp, by simp⟩
    | some contents =>
      by_cases hw : outPath page ∈ fs.badWrite
      · simp only [processPages, hread, if_pos hw]
        exact ⟨by simp, by simp, [], by simp, by simp⟩
      · simp only [processPages, hread, if_neg hw]
        obtain ⟨hd, hb, W, hW, hk⟩ :=
          ih { fs with files := (outPath page, splice t ci contents) :: fs.files }
        refine ⟨hd, hb, W ++ [(outPath page, splice t ci contents)], ?_, ?_⟩
        · rw [hW]; simp
        · intro pr hpr
          rcases List.mem_append.mp hpr with h | h
          · obtain ⟨pg, hpg, he⟩ := hk pr h
            exact ⟨pg, List.mem_cons_of_mem _ hpg, he⟩
          · simp only [List.mem_singleton] at h
            rw [h]
            exact ⟨page, List.mem_cons_self _ _, rfl⟩

theorem processPages_frame (t : Doc) (ci : Nat) (pages : List FPath) (fs : FSState)
    (p : FPath) (hp : ∀ page ∈ pages, p ≠ outPath page) :
    lookupFile p (processPages t ci pages fs).1.files = lookupFile p fs.files := by
  obtain ⟨_, _, W, hW, hk⟩ := processPages_writes t ci pages fs
  rw [hW]
  apply lookupFile_append_no_key
  intro pr hpr
  obtain ⟨page, hpg, he⟩ := hk pr hpr
  rw [he]
  exact fun hh => hp page hpg hh.symm

theorem processPages_ok (t : Doc) (ci : Nat) (frag : FPath → Doc) :
    ∀ (pages : List FPath) (fs : FSState),
      (∀ page ∈ pages, lookupFile (CONTENT_DIR ++ page) fs.files = some (frag page)) →
      (∀ page ∈ pages, outPath page ∉ fs.badWrite) →
      (processPages t ci pages fs).2 = BuildResult.ok ∧
      ∀ page ∈ pages,
        lookupFile (outPath page) (processPages t ci pages fs).1.files
          = some (splice t ci (frag page)) := by
  intro pages
  induction pages with
  | nil => intro fs _ _; exact ⟨rfl, by simp⟩
  | cons page rest ih =>
    intro fs hread hw
    have hr : lookupFile (CONTENT_DIR ++ page) fs.files = some (frag page) :=
      hread page (List.mem_cons_self _ _)
    have hwp : outPath page ∉ fs.badWrite := hw page (List.mem_cons_self _ _)
    have hstep : processPages t ci (page :: rest) fs
        = processPages t ci rest
            { fs with files := (outPath page, splice t ci (frag page)) :: fs.files } := by
      simp only [processPages, hr, if_neg hwp]
    have hread1 : ∀ pg ∈ rest, lookupFile (CONTENT_DIR ++ pg)
        (FSState.files { fs with files := (outPath page, splice t ci (frag page)) :: fs.files })
          = some (frag pg) := by
      intro pg hpg
      rw [lookupFile_cons_ne _ _ _ _ (Ne.symm (contentPath_ne_outPath pg page))]
      exact hread pg (List.mem_cons_of_mem _ hpg)
    have hw1 : ∀ pg ∈ rest, outPath pg ∉
        FSState.badWrite { fs with files := (outPath page, splice t ci (frag page)) :: fs.files } := by
      intro pg hpg
      exact hw pg (List.mem_cons_of_mem _ hpg)
    obtain ⟨hok, hlook⟩ := ih _ hread1 hw1
    constructor
    · rw [hstep]; exact hok
    · intro pg hpg
      rw [hstep]
      rcases List.mem_cons.mp hpg with he | hm
      · subst he
        by_cases hdup : ∃ pg2 ∈ rest, outPath pg2 = outPath pg
        · obtain ⟨pg2, hm2, he2⟩ := hdup
          have hpe : pg2 = pg := outPath_inj he2
          have := hlook pg2 hm2
          rw [hpe] at this
          exact this
        · rw [processPages_frame t ci rest _ (outPath pg)
              (fun pg2 hm2 he2 => hdup ⟨pg2, hm2, he2.symm⟩)]
          exact lookupFile_cons_self _ _ _
      · exact hlook pg hm

theorem processPages_append (t : Doc) (ci : Nat) :
    ∀ (good more : List FPath) (fs : FSState),
      (processPages t ci good fs).2 = BuildResult.ok →
      processPages t ci (good ++ more) fs
        = processPages t ci more (processPages t ci good fs).1 := by
  intro good
  induction good with
  | nil => intro more fs _; rfl
  | cons page rest ih =>
    intro more fs hok
    cases hread : lookupFile (CONTENT_DIR ++ page) fs.files with
    | none =>
      simp only [processPages, hread] at hok
      exact absurd hok (by simp)
    | some contents =>
      by_cases hw : outPath page ∈ fs.badWrite
      · simp only [processPages, hread, if_pos hw] at hok
        exact absurd hok (by simp)
      · simp only [List.cons_append, processPages, hread, if_neg hw] at hok ⊢
        exact ih more _ hok

theorem processPages_congr (t : Doc) (ci : Nat) :
    ∀ (pages : List FPath) (fsA fsB : FSState),
      (∀ q, lookupFile (CONTENT_DIR ++ q) fsA.files
        = lookupFile (CONTENT_DIR ++ q) fsB.files) →
      fsA.badWrite = fsB.badWrite →
      (processPages t ci pages fsA).2 = (processPages t ci pages fsB).2 ∧
      ∃ W, (processPages t ci pages fsA).1.files = W ++ fsA.files ∧
           (processPages t ci pages fsB).1.files = W ++ fsB.files := by
  intro pages
  induction pages with
  | nil => intro fsA fsB _ _; exact ⟨rfl, [], rfl, rfl⟩
  | cons page rest ih =>
    intro fsA fsB hq hbad
    have hq0 := hq page
    cases hB : lookupFile (CONTENT_DIR ++ page) fsB.files with
    | none =>
      rw [hB] at hq0
      simp only [processPages, hq0, hB]
      exact ⟨by simp, [], by simp, by simp⟩
    | some contents =>
      rw [hB] at hq0
      by_cases hw : outPath page ∈ fsB.badWrite
      · have hwA : outPath page ∈ fsA.badWrite := by rw [hbad]; exact hw
        simp only [processPages, hq0, hB, if_pos hw, if_pos hwA]
        exact ⟨by simp, [], by simp, by simp⟩
      · have hwA : outPath page ∉ fsA.badWrite := by rw [hbad]; exact hw
        simp only [processPages, hq0, hB, if_neg hw, if_neg hwA]
        have hq2 : ∀ q2, lookupFile (CONTENT_DIR ++ q2)
            (FSState.files { fsA with files := (outPath page, splice t ci contents) :: fsA.files })
            = lookupFile (CONTENT_DIR ++ q2)
              (FSState.files { fsB with files := (outPath page, splice t ci contents) :: fsB.files }) := by
          intro q2
          rw [lookupFile_cons_ne _ _ _ _ (Ne.symm (contentPath_ne_outPath q2 page)),
              lookupFile_cons_ne _ _ _ _ (Ne.symm (contentPath_ne_outPath q2 page))]
          exact hq q2
        obtain ⟨hres, W, hWA, hWB⟩ := ih
          { fsA with files := (outPath page, splice t ci contents) :: fsA.files }
          { fsB with files := (outPath page, splice t ci contents) :: fsB.files }
          hq2 hbad
        refine ⟨hres, W ++ [(outPath page, splice t ci contents)], ?_, ?_⟩
        · rw [hWA]; simp
        · rw [hWB]; simp

/- Lemmas about build as a whole. -/

theorem build_writes (pages : List FPath) (fs : FSState) :
    (build pages fs).1.badWrite = fs.badWrite ∧
    ∃ W, (build pages fs).1.files = W ++ fs.files ∧
      ∀ pr ∈ W, ∃ page ∈ pages, pr.1 = outPath page := by
  cases hT : lookupFile TEMPLATE_FILE fs.files with
  | none =>
    simp only [build, hT]
    exact ⟨by simp, [], by simp, by simp⟩
  | some t =>
    cases hci : findContentIdx t with
    | none =>
      simp only [build, hT, hci]
      exact ⟨by simp, [], by simp, by simp⟩
    | some ci =>
      simp only [build, hT, hci]
      obtain ⟨hd, hb, W, hW, hk⟩ := processPages_writes t ci pages (mkdirBuildDir fs)
      refine ⟨?_, W, ?_, hk⟩
      · rw [hb, mkdirBuildDir_badWrite]
      · rw [hW, mkdirBuildDir_files]

theorem build_frame (pages : List FPath) (fs : FSState) (p : FPath)
    (hp : ∀ page ∈ pages, p ≠ outPath page) :
    lookupFile p (build pages fs).1.files = lookupFile p fs.files := by
  obtain ⟨_, W, hW, hk⟩ := build_writes pages fs
  rw [hW]
  apply lookupFile_append_no_key
  intro pr hpr
  obtain ⟨page, hpg, he⟩ := hk pr hpr
  rw [he]
  exact fun hh => hp page hpg hh.symm

theorem build_ok (t : Doc) (ci : Nat) (frag : FPath → Doc) (pages : List FPath)
    (fs : FSState)
    (hT : lookupFile TEMPLATE_FILE fs.files = some t)
    (hci : findContentIdx t = some ci)
    (hread : ∀ page ∈ pages, lookupFile (CONTENT_DIR ++ page) fs.files = some (frag page))
    (hw : ∀ page ∈ pages, outPath page ∉ fs.badWrite) :
    (build pages fs).2 = BuildResult.ok ∧
    ∀ page ∈ pages,
      lookupFile (outPath page) (build pages fs).1.files
        = some (splice t ci (frag page)) := by
  have h1 : ∀ page ∈ pages,
      lookupFile (CONTENT_DIR ++ page) (mkdirBuildDir fs).files = some (frag page) := by
    intro page hpg
    rw [mkdirBuildDir_files]
    exact hread page hpg
  have h2 : ∀ page ∈ pages, outPath page ∉ (mkdirBuildDir fs).badWrite := by
    intro page hpg
    rw [mkdirBuildDir_badWrite]
    exact hw page hpg
  simp only [build, hT, hci]
  exact processPages_ok t ci frag pages (mkdirBuildDir fs) h1 h2

theorem build_congr (pages : List FPath) (fsA fsB : FSState)
    (hT : lookupFile TEMPLATE_FILE fsA.files = lookupFile TEMPLATE_FILE fsB.files)
    (hC : ∀ q, lookupFile (CONTENT_DIR ++ q) fsA.files
      = lookupFile (CONTENT_DIR ++ q) fsB.files)
    (hbad : fsA.badWrite = fsB.badWrite) :
    (build pages fsA).2 = (build pages fsB).2 ∧
    ∃ W, (build pages fsA).1.files = W ++ fsA.files ∧
         (build pages fsB).1.files = W ++ fsB.files := by
  cases hTB : lookupFile TEMPLATE_FILE fsB.files with
  | none =>
    rw [hTB] at hT
    simp only [build, hT, hTB]
    exact ⟨by simp, [], by simp, by simp⟩
  | some t =>
    rw [hTB] at hT
    cases hci : findContentIdx t with
    | none =>
      simp only [build, hT, hTB, hci]
      exact ⟨by simp, [], by simp, by simp⟩
    | some ci =>
      simp only [build, hT, hTB, hci]
      have hC2 : ∀ q, lookupFile (CONTENT_DIR ++ q) (mkdirBuildDir fsA).files
          = lookupFile (CONTENT_DIR ++ q) (mkdirBuildDir fsB).files := by
        intro q
        rw [mkdirBuildDir_files, mkdirBuildDir_files]
        exact hC q
      have hbad2 : (mkdirBuildDir fsA).badWrite = (mkdirBuildDir fsB).badWrite := by
        rw [mkdirBuildDir_badWrite, mkdirBuildDir_badWrite]
        exact hbad
      obtain ⟨hres, W, hWA, hWB⟩ :=
        processPages_congr t ci pages (mkdirBuildDir fsA) (mkdirBuildDir fsB) hC2 hbad2
      refine ⟨hres, W, ?_, ?_⟩
      · rw [hWA, mkdirBuildDir_files]
      · rw [hWB, mkdirBuildDir_files]

theorem build_dirs_mem (pages : List FPath) (fs : FSState) (t : Doc) (ci : Nat)
    (hT : lookupFile TEMPLATE_FILE fs.files = some t)
    (hci : findContentIdx t = some ci) :
    BUILD_DIR ∈ (build pages fs).1.dirs := by
  simp only [build, hT, hci]
  obtain ⟨hd, _, _⟩ := processPages_writes t ci pages (mkdirBuildDir fs)
  rw [hd]
  exact mkdirBuildDir_mem_dirs fs

/- Byte-level substring lemmas: a newline-free key occurs in the bytes of a
newline-terminated line list exactly when it occurs in one of the lines. -/

theorem hasSubstr_cons (key : List Char) (c : Char) (t : List Char) :
    hasSubstr key (c :: t) = (key.isPrefixOf (c :: t) || hasSubstr key t) := rfl

theorem isPrefixOf_append_self : ∀ (u v : List Char), u.isPrefixOf (u ++ v) = true := by
  intro u
  induction u with
  | nil => intro v; exact List.isPrefixOf_nil_left
  | cons a t ih =>
    intro v
    simp only [List.cons_append, List.isPrefixOf, Bool.and_eq_true]
    exact ⟨beq_self_eq_true a, ih v⟩

theorem hasSubstr_append_self (key : List Char) : ∀ (u v : List Char),
    hasSubstr key (u ++ key ++ v) = true := by
  intro u
  induction u with
  | nil =>
    intro v
    cases key with
    | nil =>
      cases v with
      | nil => rfl
      | cons c t => simp [hasSubstr, List.isPrefixOf]
    | cons a k2 =>
      simp only [List.nil_append, List.cons_append, hasSubstr, Bool.or_eq_true]
      left
      exact isPrefixOf_append_self (a :: k2) v
  | cons c u2 ih =>
    intro v
    simp only [List.cons_append, hasSubstr, Bool.or_eq_true]
    right
    exact ih v

theorem isPrefixOf_append_cases : ∀ (u key w : List Char),
    key.isPrefixOf (u ++ w) = true →
    key.isPrefixOf u = true ∨ u.isPrefixOf key = true := by
  intro u
  induction u with
  | nil =>
    intro key w _
    right
    exact List.isPrefixOf_nil_left
  | cons b u2 ih =>
    intro key w h
    cases key with
    | nil =>
      left
      exact List.isPrefixOf_nil_left
    | cons a k2 =>
      simp only [List.cons_append, List.isPrefixOf, Bool.and_eq_true, beq_iff_eq] at h ⊢
      obtain ⟨hab, hrest⟩ := h
      rcases ih k2 w hrest with h1 | h2
      · exact Or.inl ⟨hab, h1⟩
      · exact Or.inr ⟨hab.symm, h2⟩

theorem mem_of_isPrefixOf {x : Char} : ∀ (u v : List Char),
    u.isPrefixOf v = true → x ∈ u → x ∈ v := by
  intro u
  induction u with
  | nil => intro v _ hx; cases hx
  | cons a t ih =>
    intro v hp hx
    cases v with
    | nil => simp [List.isPrefixOf] at hp
    | cons b w =>
      simp only [List.isPrefixOf, Bool.and_eq_true, beq_iff_eq] at hp
      obtain ⟨hab, hrest⟩ := hp
      rcases List.mem_cons.mp hx with he | hm
      · rw [he, hab]
        exact List.mem_cons_self _ _
      · exact List.mem_cons_of_mem _ (ih w hrest hm)

theorem newline_mem_of_endsNL : ∀ (l : List Char), endsNL l = true → '\n' ∈ l := by
  intro l
  induction l with
  | nil => intro h; simp [endsNL] at h
  | cons c t ih =>
    intro h
    cases t with
    | nil =>
      simp only [endsNL, beq_iff_eq] at h
      rw [h]
      exact List.mem_cons_self _ _
    | cons d r =>
      simp only [endsNL] at h
      exact List.mem_cons_of_mem _ (ih h)

theorem hasSubstr_append_cases (key : List Char) (hne : key ≠ []) (hnl : '\n' ∉ key) :
    ∀ (l w : List Char), endsNL l = true → hasSubstr key (l ++ w) = true →
      hasSubstr key l = true ∨ hasSubstr key w = true := by
  intro l
  induction l with
  | nil =>
    intro w hend _
    simp [endsNL] at hend
  | cons c t ih =>
    intro w hend h
    cases t with
    | nil =>
      have hc : c = '\n' := by simpa [endsNL] using hend
      simp only [List.cons_append, List.nil_append, hasSubstr, Bool.or_eq_true] at h
      rcases h with hp | hs
      · cases key with
        | nil => exact absurd rfl hne
        | cons a k2 =>
          simp only [List.isPrefixOf, Bool.and_eq_true, beq_iff_eq] at hp
          exact absurd (by rw [hp.1, hc]; exact List.mem_cons_self _ _ : '\n' ∈ a :: k2) hnl
      · exact Or.inr hs
    | cons d r =>
      have hend2 : endsNL (d :: r) = true := by simpa [endsNL] using hend
      rw [show (c :: d :: r) ++ w = c :: d :: (r ++ w) from rfl, hasSubstr_cons,
          Bool.or_eq_true] at h
      rcases h with hp | hs
      · rcases isPrefixOf_append_cases (c :: d :: r) key w hp with h1 | h2
        · left
          show (key.isPrefixOf (c :: d :: r) || hasSubstr key (d :: r)) = true
          rw [h1, Bool.true_or]
        · exact absurd (mem_of_isPrefixOf (c :: d :: r) key h2
            (newline_mem_of_endsNL _ hend)) hnl
      · rcases ih w hend2 hs with h1 | h2
        · left
          show (key.isPrefixOf (c :: d :: r) || hasSubstr key (d :: r)) = true
          rw [h1, Bool.or_true]
        · exact Or.inr h2

theorem hasSubstr_docBytes_eq_false (key : List Char) (hne : key ≠ [])
    (hnl : '\n' ∉ key) :
    ∀ (L : Doc), linesTerm L = true → (∀ l ∈ L, hasSubstr key l = false) →
      hasSubstr key (docBytes L) = false := by
  intro L
  induction L with
  | nil =>
    intro _ _
    cases key with
    | nil => exact absurd rfl hne
    | cons a t => rfl
  | cons l rest ih =>
    intro hterm hline
    cases rest with
    | nil =>
      have he : docBytes [l] = l := by simp [docBytes]
      rw [he]
      exact hline l (List.mem_cons_self _ _)
    | cons l2 r2 =>
      have hend : endsNL l = true := by
        simp only [linesTerm, Bool.and_eq_true] at hterm
        exact hterm.1
      have hterm2 : linesTerm (l2 :: r2) = true := by
        simp only [linesTerm, Bool.and_eq_true] at hterm
        exact hterm.2
      have hd : docBytes (l :: l2 :: r2) = l ++ docBytes (l2 :: r2) := by
        simp [docBytes]
      rw [hd]
      cases hval : hasSubstr key (l ++ docBytes (l2 :: r2)) with
      | false => rfl
      | true =>
        rcases hasSubstr_append_cases key hne hnl l (docBytes (l2 :: r2)) hend hval
          with h1 | h2
        · rw [hline l (List.mem_cons_self _ _)] at h1
          exact Bool.noConfusion h1
        · rw [ih hterm2 (fun x hx => hline x (List.mem_cons_of_mem _ hx))] at h2
          exact Bool.noConfusion h2

theorem linesTerm_cons (l : Line) (L : Doc) (h1 : endsNL l = true)
    (h2 : linesTerm L = true) : linesTerm (l :: L) = true := by
  cases L with
  | nil => rfl
  | cons l2 r => simp [linesTerm, h1, h2]

theorem linesTerm_append (u v : Doc) (hu : ∀ l ∈ u, endsNL l = true)
    (hv : linesTerm v = true) : linesTerm (u ++ v) = true := by
  induction u with
  | nil => simpa using hv
  | cons l r ih =>
    rw [List.cons_append]
    exact linesTerm_cons l (r ++ v) (hu l (List.mem_cons_self _ _))
      (ih (fun x hx => hu x (List.mem_cons_of_mem _ hx)))

/- The claims. -/

/-- Claim C1 (amended): for a template with exactly one line containing the
marker token — the lines of `t1` and of `t2` do not contain it, the line `lm`
does — with the template's lines newline-terminated as readlines guarantees
(every line of `t1` ends with a newline since the marker line follows it, and
of `t2` every line except possibly the file's last), and any fragment,
`build` writes for each page an output document equal to the template lines
before the marker line, then the fragment lines, then the template lines
after the marker line; its bytes are the concatenation of the bytes of those
three groups; and, provided no fragment line contains the marker token AND
every fragment line is newline-terminated (the fragment file ends with a
newline), the marker token does not occur anywhere in the output bytes.
(The original claim asserted the last part unconditionally; a fragment
containing the marker token, or a fragment without a final newline gluing to
the template suffix, refutes that — see the counterexample.) -/
theorem C1_single_marker_splice (t1 : Doc) (lm : Line) (t2 : Doc) (frag : FPath → Doc)
    (pages : List FPath) (fs : FSState) (page : FPath)
    (hmem : page ∈ pages)
    (hm : hasSubstr CONTENT_KEY lm = true)
    (h1 : ∀ l ∈ t1, hasSubstr CONTENT_KEY l = false)
    (h2 : ∀ l ∈ t2, hasSubstr CONTENT_KEY l = false)
    (hnl1 : ∀ l ∈ t1, endsNL l = true)
    (hnl2 : linesTerm t2 = true)
    (hT : lookupFile TEMPLATE_FILE fs.files = some (t1 ++ lm :: t2))
    (hread : ∀ pg ∈ pages, lookupFile (CONTENT_DIR ++ pg) fs.files = some (frag pg))
    (hw : ∀ pg ∈ pages, outPath pg ∉ fs.badWrite) :
    lookupFile (outPath page) (build pages fs).1.files = some (t1 ++ frag page ++ t2) ∧
    docBytes (t1 ++ frag page ++ t2)
      = docBytes t1 ++ docBytes (frag page) ++ docBytes t2 ∧
    ((∀ l ∈ frag page, hasSubstr CONTENT_KEY l = false) →
      (∀ l ∈ frag page, endsNL l = true) →
      hasSubstr CONTENT_KEY (docBytes (t1 ++ frag page ++ t2)) = false) := by
  have hci : findContentIdx (t1 ++ lm :: t2) = some t1.length :=
    findContentIdx_last t1 lm t2 hm h2
  obtain ⟨hok, hlook⟩ := build_ok (t1 ++ lm :: t2) t1.length frag pages fs hT hci hread hw
  refine ⟨?_, ?_, ?_⟩
  · have hx := hlook page hmem
    rw [splice_decomp] at hx
    exact hx
  · rw [docBytes_append, docBytes_append]
  · intro hcm hnlc
    apply hasSubstr_docBytes_eq_false CONTENT_KEY (by decide) (by decide)
    · apply linesTerm_append (t1 ++ frag page) t2 ?_ hnl2
      intro l hl
      rcases List.mem_append.mp hl with ha | hb
      · exact hnl1 l ha
      · exact hnlc l hb
    · intro l hl
      rcases List.mem_append.mp hl with hl1 | hc2
      · rcases List.mem_append.mp hl1 with ha | hb2
        · exact h1 l ha
        · exact hcm l hb2
      · exact h2 l hc2

/-- Claim C1, witness: the spec's own example, template
`<html> / marker / </html>` with fragment `<p>hi</p>`. -/
theorem C1_single_marker_splice_witness :
    lookupFile (outPath pageA) (build pagesEx fsEx).1.files
      = some ([lineHtmlOpen] ++ fragEx pageA ++ [lineHtmlClose]) ∧
    hasSubstr CONTENT_KEY (docBytes ([lineHtmlOpen] ++ fragEx pageA ++ [lineHtmlClose]))
      = false :=
  ⟨(C1_single_marker_splice [lineHtmlOpen] lineMarker [lineHtmlClose] fragEx pagesEx fsEx
      pageA (by decide) (by decide) (by decide) (by decide) (by decide) (by decide)
      (by decide) (by decide) (by decide)).1,
   (C1_single_marker_splice [lineHtmlOpen] lineMarker [lineHtmlClose] fragEx pagesEx fsEx
      pageA (by decide) (by decide) (by decide) (by decide) (by decide) (by decide)
      (by decide) (by decide) (by decide)).2.2 (by decide) (by decide)⟩

/-- Claim C1, counterexample to the unamended claim, in two parts. First,
a fragment whose single line is the marker token: build succeeds, the output
is exactly prefix ++ fragment ++ suffix, and the marker token occurs in the
output bytes. Second, even with no marker in any fragment line, a fragment
file without a final newline (single line `{{cont`) spliced into the template
`{{content}}\n` / `ent}}` makes the marker token span the boundary between
the fragment's last line and the template suffix in the written bytes. -/
theorem C1_marker_in_fragment_counterexample :
    (build [pageM] fsMark).2 = BuildResult.ok ∧
    lookupFile (outPath pageM) (build [pageM] fsMark).1.files
      = some ([lineHtmlOpen] ++ fragM ++ [lineHtmlClose]) ∧
    hasSubstr CONTENT_KEY (docBytes ([lineHtmlOpen] ++ fragM ++ [lineHtmlClose]))
      = true ∧
    hasSubstr CONTENT_KEY ("\x7b\x7bcont".toList) = false ∧
    hasSubstr CONTENT_KEY lineSpanEnd = false ∧
    (build [pageM] fsSpan).2 = BuildResult.ok ∧
    lookupFile (outPath pageM) (build [pageM] fsSpan).1.files
      = some (fragSpan ++ [lineSpanEnd]) ∧
    hasSubstr CONTENT_KEY (docBytes (fragSpan ++ [lineSpanEnd])) = true := by decide

/-- Claim C2 (corrected): when the marker token occurs on more than one line,
`build` splices the fragment at the LAST line containing the marker — the
scan loop overwrites `content_index` on every match — and every EARLIER
line, marker lines included, is kept in the output as ordinary content.
`lm` is the last marker line: the lines after it (`t2`) contain no marker,
the lines before it (`t1`) may contain any number of marker lines. -/
theorem C2_last_marker_wins (t1 : Doc) (lm : Line) (t2 : Doc) (frag : FPath → Doc)
    (pages : List FPath) (fs : FSState) (page : FPath)
    (hmem : page ∈ pages)
    (hm : hasSubstr CONTENT_KEY lm = true)
    (h2 : ∀ l ∈ t2, hasSubstr CONTENT_KEY l = false)
    (hT : lookupFile TEMPLATE_FILE fs.files = some (t1 ++ lm :: t2))
    (hread : ∀ pg ∈ pages, lookupFile (CONTENT_DIR ++ pg) fs.files = some (frag pg))
    (hw : ∀ pg ∈ pages, outPath pg ∉ fs.badWrite) :
    findContentIdx (t1 ++ lm :: t2) = some t1.length ∧
    lookupFile (outPath page) (build pages fs).1.files = some (t1 ++ frag page ++ t2) ∧
    ∀ l ∈ t1, l ∈ t1 ++ frag page ++ t2 := by
  have hci : findContentIdx (t1 ++ lm :: t2) = some t1.length :=
    findContentIdx_last t1 lm t2 hm h2
  obtain ⟨hok, hlook⟩ := build_ok (t1 ++ lm :: t2) t1.length frag pages fs hT hci hread hw
  refine ⟨hci, ?_, ?_⟩
  · have hx := hlook page hmem
    rw [splice_decomp] at hx
    exact hx
  · intro l hl
    exact List.mem_append_left t2 (List.mem_append_left (frag page) hl)

/-- Claim C2, witness: template with marker lines at indices 0 and 2; the
fragment lands at index 2 and the index-0 marker line survives in the
output. -/
theorem C2_last_marker_wins_witness :
    lookupFile (outPath pageM) (build [pageM] fsMulti).1.files
      = some ([lineMarker, lineMid] ++ fragX ++ [lineEnd]) :=
  (C2_last_marker_wins [lineMarker, lineMid] lineMarker [lineEnd] (fun _ => fragX)
    [pageM] fsMulti pageM (by decide) (by decide) (by decide) (by decide) (by decide)
    (by decide)).2.1

/-- Claim C2, counterexample to first-match splicing: with marker lines at
indices 0 and 2 the written output is the splice at index 2, not the splice
at index 0 that first-match-wins would produce. -/
theorem C2_first_match_counterexample :
    lookupFile (outPath pageM) (build [pageM] fsMulti).1.files
      = some (splice tMulti 2 fragX) ∧
    lookupFile (outPath pageM) (build [pageM] fsMulti).1.files
      ≠ some (splice tMulti 0 fragX) ∧
    hasSubstr CONTENT_KEY lineMarker = true := by decide

/-- Claim C3: for a template none of whose lines contains the marker token,
build returns the configuration error carrying the message that names the
missing marker, the exit status is non-zero, and nothing is written: the
whole state comes back unchanged. -/
theorem C3_missing_marker (pages : List FPath) (fs : FSState) (t : Doc)
    (hT : lookupFile TEMPLATE_FILE fs.files = some t)
    (hnone : ∀ l ∈ t, hasSubstr CONTENT_KEY l = false) :
    build pages fs = (fs, BuildResult.configErr missingMarkerMsg) ∧
    hasSubstr CONTENT_KEY missingMarkerMsg = true ∧
    (build pages fs).2.exitCode ≠ 0 ∧
    (build pages fs).1.files = fs.files := by
  have hci : findContentIdx t = none := findContentIdx_of_no_marker t hnone
  have hb : build pages fs = (fs, BuildResult.configErr missingMarkerMsg) := by
    simp only [build, hT, hci]
  refine ⟨hb, by decide, ?_, ?_⟩
  · rw [hb]
    simp [BuildResult.exitCode]
  · rw [hb]

/-- Claim C3, witness: a template of two plain HTML lines without the
marker. -/
theorem C3_missing_marker_witness :
    build pagesEx fsNoMark = (fsNoMark, BuildResult.configErr missingMarkerMsg) ∧
    (build pagesEx fsNoMark).2.exitCode ≠ 0 :=
  ⟨(C3_missing_marker pagesEx fsNoMark tNoMark (by decide) (by decide)).1,
   (C3_missing_marker pagesEx fsNoMark tNoMark (by decide) (by decide)).2.2.1⟩

/-- Claim C4: the claim describes the intended lock protocol — an event while
Idle moves the handler to Building, events during the build only increment
the counter, and three events during one build give one build and a reported
count of 2. The code never assigns True to `locked` (line 21 of watch.py
re-assigns False after the build), so the counting branch is unreachable
from the initial state: evaluating the handler at the claim's own scenario —
one event while idle with three events arriving strictly during its build —
performs FOUR builds, reports 0 every time, and leaves `locked` False. -/
theorem C4_watcher_code_eval :
    onModifiedDuring ⟨false, 0⟩ 3 = (⟨false, 0⟩, 4, [0, 0, 0, 0]) ∧
    (onModifiedDuring ⟨false, 0⟩ 3).2.1 ≠ 1 ∧
    (onModifiedFlat ⟨false, 0⟩).1.locked = false := by decide

/-- Claim C5: running build twice in succession with unchanged inputs gives
the same outcome, and afterwards every path holds exactly the document it
held after the single run — the second run overwrites each output with the
same bytes. No success hypothesis is needed: a failing run repeats
identically as well. -/
theorem C5_idempotent (pages : List FPath) (fs : FSState) :
    (build pages (build pages fs).1).2 = (build pages fs).2 ∧
    ∀ p : FPath, lookupFile p (build pages (build pages fs).1).1.files
      = lookupFile p (build pages fs).1.files := by
  obtain ⟨hbad, W0, hW0, hk0⟩ := build_writes pages fs
  have hT : lookupFile TEMPLATE_FILE (build pages fs).1.files
      = lookupFile TEMPLATE_FILE fs.files :=
    build_frame pages fs TEMPLATE_FILE (fun page _ => templatePath_ne_outPath page)
  have hC : ∀ q, lookupFile (CONTENT_DIR ++ q) (build pages fs).1.files
      = lookupFile (CONTENT_DIR ++ q) fs.files :=
    fun q => build_frame pages fs (CONTENT_DIR ++ q)
      (fun page _ => contentPath_ne_outPath q page)
  obtain ⟨hres, W, hWA, hWB⟩ := build_congr pages (build pages fs).1 fs hT hC hbad
  refine ⟨hres, ?_⟩
  intro p
  rw [hWA, lookupFile_append]
  cases hpW : lookupFile p W with
  | none => rfl
  | some d => rw [hWB, lookupFile_append, hpW]

/-- Claim C6: build routes the output for the fragment named `index.html` to
`./index.html` and the output for every other fragment name to `./build/`
followed by the fragment's own file name. -/
theorem C6_output_routing (t : Doc) (ci : Nat) (frag : FPath → Doc)
    (pages : List FPath) (fs : FSState)
    (hT : lookupFile TEMPLATE_FILE fs.files = some t)
    (hci : findContentIdx t = some ci)
    (hread : ∀ pg ∈ pages, lookupFile (CONTENT_DIR ++ pg) fs.files = some (frag pg))
    (hw : ∀ pg ∈ pages, outPath pg ∉ fs.badWrite) :
    outPath ("index.html".toList) = "./index.html".toList ∧
    (∀ page ∈ pages, page = "index.html".toList →
      lookupFile ("./index.html".toList) (build pages fs).1.files
        = some (splice t ci (frag page))) ∧
    (∀ page ∈ pages, page ≠ "index.html".toList →
      lookupFile (BUILD_DIR ++ page) (build pages fs).1.files
        = some (splice t ci (frag page))) := by
  obtain ⟨hok, hlook⟩ := build_ok t ci frag pages fs hT hci hread hw
  refine ⟨by decide, ?_, ?_⟩
  · intro page hpg hidx
    have hx := hlook page hpg
    rw [outPath, if_pos hidx] at hx
    have he : INDEX_DIR ++ page = "./index.html".toList := by
      rw [hidx]
      decide
    rw [he] at hx
    exact hx
  · intro page hpg hidx
    have hx := hlook page hpg
    rw [outPath, if_neg hidx] at hx
    exact hx

/-- Claim C6, witness: `index.html` goes to `./index.html`, `a.html` goes to
`./build/a.html`. -/
theorem C6_output_routing_witness :
    lookupFile ("./index.html".toList) (build pagesEx fsEx).1.files
      = some (splice tEx 1 (fragEx pageIndex)) ∧
    lookupFile (BUILD_DIR ++ pageA) (build pagesEx fsEx).1.files
      = some (splice tEx 1 (fragEx pageA)) :=
  ⟨(C6_output_routing tEx 1 fragEx pagesEx fsEx (by decide) (by decide) (by decide)
      (by decide)).2.1 pageIndex (by decide) (by decide),
   (C6_output_routing tEx 1 fragEx pagesEx fsEx (by decide) (by decide) (by decide)
      (by decide)).2.2 pageA (by decide) (by decide)⟩

/-- Claim C7: if reading one fragment, or writing one fragment's output,
fails with an I/O error, build returns that error as its result immediately —
no catching, no retrying: the pages before the failing one are written and
stay written, and every path that is not one of their outputs (in particular
the outputs of the remaining, unprocessed pages, and all inputs) is left
exactly as it was. -/
theorem C7_abort_on_io_error (t : Doc) (ci : Nat) (frag : FPath → Doc)
    (good : List FPath) (failPage : FPath) (rest : List FPath) (fs : FSState)
    (hT : lookupFile TEMPLATE_FILE fs.files = some t)
    (hci : findContentIdx t = some ci)
    (hread : ∀ pg ∈ good, lookupFile (CONTENT_DIR ++ pg) fs.files = some (frag pg))
    (hw : ∀ pg ∈ good, outPath pg ∉ fs.badWrite)
    (hfail : lookupFile (CONTENT_DIR ++ failPage) fs.files = none ∨
      ((∃ d, lookupFile (CONTENT_DIR ++ failPage) fs.files = some d) ∧
        outPath failPage ∈ fs.badWrite)) :
    ((build (good ++ failPage :: rest) fs).2
        = BuildResult.ioErr (CONTENT_DIR ++ failPage) ∨
      (build (good ++ failPage :: rest) fs).2 = BuildResult.ioErr (outPath failPage)) ∧
    (∀ pg ∈ good, lookupFile (outPath pg) (build (good ++ failPage :: rest) fs).1.files
      = some (splice t ci (frag pg))) ∧
    (∀ p : FPath, (∀ pg ∈ good, p ≠ outPath pg) →
      lookupFile p (build (good ++ failPage :: rest) fs).1.files
        = lookupFile p fs.files) := by
  have hb : build (good ++ failPage :: rest) fs
      = processPages t ci (good ++ failPage :: rest) (mkdirBuildDir fs) := by
    simp only [build, hT, hci]
  have hread0 : ∀ pg ∈ good,
      lookupFile (CONTENT_DIR ++ pg) (mkdirBuildDir fs).files = some (frag pg) := by
    intro pg hpg
    rw [mkdirBuildDir_files]
    exact hread pg hpg
  have hw0 : ∀ pg ∈ good, outPath pg ∉ (mkdirBuildDir fs).badWrite := by
    intro pg hpg
    rw [mkdirBuildDir_badWrite]
    exact hw pg hpg
  obtain ⟨hok, hlook⟩ := processPages_ok t ci frag good (mkdirBuildDir fs) hread0 hw0
  have happ := processPages_append t ci good (failPage :: rest) (mkdirBuildDir fs) hok
  have hframe1 : lookupFile (CONTENT_DIR ++ failPage)
      (processPages t ci good (mkdirBuildDir fs)).1.files
      = lookupFile (CONTENT_DIR ++ failPage) fs.files := by
    rw [processPages_frame t ci good (mkdirBuildDir fs) (CONTENT_DIR ++ failPage)
        (fun pg _ => contentPath_ne_outPath failPage pg), mkdirBuildDir_files]
  have hbad1 : (processPages t ci good (mkdirBuildDir fs)).1.badWrite = fs.badWrite := by
    obtain ⟨_, hb2, _⟩ := processPages_writes t ci good (mkdirBuildDir fs)
    rw [hb2, mkdirBuildDir_badWrite]
  rcases hfail with hr | ⟨⟨d, hd⟩, hwf⟩
  · have hr1 : lookupFile (CONTENT_DIR ++ failPage)
        (processPages t ci good (mkdirBuildDir fs)).1.files = none := by
      rw [hframe1]
      exact hr
    have hfin : build (good ++ failPage :: rest) fs
        = ((processPages t ci good (mkdirBuildDir fs)).1,
            BuildResult.ioErr (CONTENT_DIR ++ failPage)) := by
      rw [hb, happ]
      simp only [processPages, hr1]
    refine ⟨Or.inl (by rw [hfin]), ?_, ?_⟩
    · intro pg hpg
      rw [hfin]
      exact hlook pg hpg
    · intro p hp
      rw [hfin]
      show lookupFile p (processPages t ci good (mkdirBuildDir fs)).1.files
        = lookupFile p fs.files
      rw [processPages_frame t ci good (mkdirBuildDir fs) p hp, mkdirBuildDir_files]
  · have hr1 : lookupFile (CONTENT_DIR ++ failPage)
        (processPages t ci good (mkdirBuildDir fs)).1.files = some d := by
      rw [hframe1]
      exact hd
    have hw1 : outPath failPage ∈ (processPages t ci good (mkdirBuildDir fs)).1.badWrite := by
      rw [hbad1]
      exact hwf
    have hfin : build (good ++ failPage :: rest) fs
        = ((processPages t ci good (mkdirBuildDir fs)).1,
            BuildResult.ioErr (outPath failPage)) := by
      rw [hb, happ]
      simp only [processPages, hr1, if_pos hw1]
    refine ⟨Or.inr (by rw [hfin]), ?_, ?_⟩
    · intro pg hpg
      rw [hfin]
      exact hlook pg hpg
    · intro p hp
      rw [hfin]
      show lookupFile p (processPages t ci good (mkdirBuildDir fs)).1.files
        = lookupFile p fs.files
      rw [processPages_frame t ci good (mkdirBuildDir fs) p hp, mkdirBuildDir_files]

/-- Claim C7, witness: fragment `b.html` is missing; `a.html` (before it) is
written and stays written, `index.html` (after it) is never written. -/
theorem C7_abort_on_io_error_witness :
    ((build ([pageA] ++ pageB :: [pageIndex]) fsFail).2
        = BuildResult.ioErr (CONTENT_DIR ++ pageB) ∨
      (build ([pageA] ++ pageB :: [pageIndex]) fsFail).2
        = BuildResult.ioErr (outPath pageB)) ∧
    lookupFile (outPath pageA) (build ([pageA] ++ pageB :: [pageIndex]) fsFail).1.files
      = some (splice tEx 1 (fragEx pageA)) ∧
    lookupFile (outPath pageIndex)
        (build ([pageA] ++ pageB :: [pageIndex]) fsFail).1.files
      = lookupFile (outPath pageIndex) fsFail.files :=
  ⟨(C7_abort_on_io_error tEx 1 fragEx [pageA] pageB [pageIndex] fsFail
      (by decide) (by decide) (by decide) (by decide) (Or.inl (by decide))).1,
   (C7_abort_on_io_error tEx 1 fragEx [pageA] pageB [pageIndex] fsFail
      (by decide) (by decide) (by decide) (by decide) (Or.inl (by decide))).2.1
      pageA (by decide),
   (C7_abort_on_io_error tEx 1 fragEx [pageA] pageB [pageIndex] fsFail
      (by decide) (by decide) (by decide) (by decide) (Or.inl (by decide))).2.2
      (outPath pageIndex) (by decide)⟩

/-- Claim C8: build ensures the output directory exists before writing: when
the build directory already exists, `os.mkdir` raises the already-exists
error, the error is swallowed and the state is untouched; when it does not
exist, it is created; in both cases build proceeds into the page loop and the
build directory exists in the final state. -/
theorem C8_mkdir_idempotent (pages : List FPath) (fs : FSState) (t : Doc) (ci : Nat)
    (hT : lookupFile TEMPLATE_FILE fs.files = some t)
    (hci : findContentIdx t = some ci) :
    (BUILD_DIR ∈ fs.dirs →
      osMkdir fs BUILD_DIR = Except.error () ∧ mkdirBuildDir fs = fs) ∧
    (BUILD_DIR ∉ fs.dirs → (mkdirBuildDir fs).dirs = BUILD_DIR :: fs.dirs) ∧
    build pages fs = processPages t ci pages (mkdirBuildDir fs) ∧
    BUILD_DIR ∈ (build pages fs).1.dirs := by
  refine ⟨?_, ?_, ?_, build_dirs_mem pages fs t ci hT hci⟩
  · intro h
    constructor
    · simp [osMkdir, h]
    · simp [mkdirBuildDir, osMkdir, h]
  · intro h
    simp [mkdirBuildDir, osMkdir, h]
  · simp only [build, hT, hci]

/-- Claim C8, witness: with the build directory pre-existing, mkdir errors
and the error is swallowed; starting fresh, the directory is created and
exists after build. -/
theorem C8_mkdir_idempotent_witness :
    (osMkdir fsDirs BUILD_DIR = Except.error () ∧ mkdirBuildDir fsDirs = fsDirs) ∧
    (mkdirBuildDir fsEx).dirs = BUILD_DIR :: fsEx.dirs ∧
    BUILD_DIR ∈ (build pagesEx fsEx).1.dirs :=
  ⟨(C8_mkdir_idempotent pagesEx fsDirs tEx 1 (by decide) (by decide)).1 (by decide),
   (C8_mkdir_idempotent pagesEx fsEx tEx 1 (by decide) (by decide)).2.1 (by decide),
   (C8_mkdir_idempotent pagesEx fsEx tEx 1 (by decide) (by decide)).2.2.2⟩

/-- Claim C9: for EVERY template whose unique marker line carries text
besides the marker token — the marker line is `pre ++ marker ++ post` with
`pre` or `post` non-empty, and no other line contains the marker — the line
is still detected, because detection is a substring test on the line; the
splice discards the ENTIRE line: the written output is exactly the other
template lines around the fragment, with `pre` and `post` gone; and hence
any newline-free non-empty string (in particular the surrounding text `pre`,
and `post` up to its newline) that occurs in no surviving line occurs
nowhere in the output bytes (line well-formedness as readlines guarantees
it). -/
theorem C9_marker_line_dropped (t1 : Doc) (pre post : List Char) (t2 : Doc)
    (frag : FPath → Doc) (pages : List FPath) (fs : FSState) (page : FPath)
    (hmem : page ∈ pages)
    (_hside : pre ≠ [] ∨ post ≠ [])
    (_h1 : ∀ l ∈ t1, hasSubstr CONTENT_KEY l = false)
    (h2 : ∀ l ∈ t2, hasSubstr CONTENT_KEY l = false)
    (hT : lookupFile TEMPLATE_FILE fs.files
      = some (t1 ++ (pre ++ CONTENT_KEY ++ post) :: t2))
    (hread : ∀ pg ∈ pages, lookupFile (CONTENT_DIR ++ pg) fs.files = some (frag pg))
    (hw : ∀ pg ∈ pages, outPath pg ∉ fs.badWrite) :
    hasSubstr CONTENT_KEY (pre ++ CONTENT_KEY ++ post) = true ∧
    lookupFile (outPath page) (build pages fs).1.files
      = some (t1 ++ frag page ++ t2) ∧
    ((∀ l ∈ t1, endsNL l = true) → (∀ l ∈ frag page, endsNL l = true) →
      linesTerm t2 = true →
      ∀ s : List Char, s ≠ [] → '\n' ∉ s →
        (∀ l ∈ t1 ++ frag page ++ t2, hasSubstr s l = false) →
        hasSubstr s (docBytes (t1 ++ frag page ++ t2)) = false) := by
  have hm : hasSubstr CONTENT_KEY (pre ++ CONTENT_KEY ++ post) = true :=
    hasSubstr_append_self CONTENT_KEY pre post
  have hci : findContentIdx (t1 ++ (pre ++ CONTENT_KEY ++ post) :: t2)
      = some t1.length :=
    findContentIdx_last t1 (pre ++ CONTENT_KEY ++ post) t2 hm h2
  obtain ⟨hok, hlook⟩ :=
    build_ok (t1 ++ (pre ++ CONTENT_KEY ++ post) :: t2) t1.length frag pages fs
      hT hci hread hw
  refine ⟨hm, ?_, ?_⟩
  · have hx := hlook page hmem
    rw [splice_decomp] at hx
    exact hx
  · intro hnl1 hnlc hnl2 s hs hsnl hlines
    apply hasSubstr_docBytes_eq_false s hs hsnl
    · apply linesTerm_append (t1 ++ frag page) t2 ?_ hnl2
      intro l hl
      rcases List.mem_append.mp hl with ha | hb
      · exact hnl1 l ha
      · exact hnlc l hb
    · exact hlines

/-- Claim C9, witness: the `<div>`-wrapped marker line of `divTemplate` is
detected, disappears entirely from the output of a concrete run, and its
surrounding pieces `<div>` and `</div>` occur nowhere in the output bytes. -/
theorem C9_marker_line_dropped_witness :
    hasSubstr CONTENT_KEY ("<div>".toList ++ CONTENT_KEY ++ "</div>\n".toList)
      = true ∧
    lookupFile (outPath pageA) (build [pageA] fsDiv).1.files
      = some ([lineHtmlOpen] ++ fragA ++ [lineHtmlClose]) ∧
    hasSubstr divTag (docBytes ([lineHtmlOpen] ++ fragA ++ [lineHtmlClose]))
      = false ∧
    hasSubstr divTagClose (docBytes ([lineHtmlOpen] ++ fragA ++ [lineHtmlClose]))
      = false :=
  ⟨(C9_marker_line_dropped [lineHtmlOpen] ("<div>".toList) ("</div>\n".toList)
      [lineHtmlClose] (fun _ => fragA) [pageA] fsDiv pageA (by decide)
      (Or.inl (by decide)) (by decide) (by decide) (by decide) (by decide)
      (by decide)).1,
   (C9_marker_line_dropped [lineHtmlOpen] ("<div>".toList) ("</div>\n".toList)
      [lineHtmlClose] (fun _ => fragA) [pageA] fsDiv pageA (by decide)
      (Or.inl (by decide)) (by decide) (by decide) (by decide) (by decide)
      (by decide)).2.1,
   (C9_marker_line_dropped [lineHtmlOpen] ("<div>".toList) ("</div>\n".toList)
      [lineHtmlClose] (fun _ => fragA) [pageA] fsDiv pageA (by decide)
      (Or.inl (by decide)) (by decide) (by decide) (by decide) (by decide)
      (by decide)).2.2 (by decide) (by decide) (by decide) divTag (by decide)
      (by decide) (by decide),
   (C9_marker_line_dropped [lineHtmlOpen] ("<div>".toList) ("</div>\n".toList)
      [lineHtmlClose] (fun _ => fragA) [pageA] fsDiv pageA (by decide)
      (Or.inl (by decide)) (by decide) (by decide) (by decide) (by decide)
      (by decide)).2.2 (by decide) (by decide) (by decide) divTagClose (by decide)
      (by decide) (by decide)⟩

/-- Claim C10: build never modifies its inputs: after any run — successful or
not — the template file and every file under the content directory hold
exactly the document they held before, and every file entry the run added is
at a derived output path of one of the listed pages. -/
theorem C10_inputs_untouched (pages : List FPath) (fs : FSState) :
    lookupFile TEMPLATE_FILE (build pages fs).1.files
      = lookupFile TEMPLATE_FILE fs.files ∧
    (∀ q : FPath, lookupFile (CONTENT_DIR ++ q) (build pages fs).1.files
      = lookupFile (CONTENT_DIR ++ q) fs.files) ∧
    ∃ W, (build pages fs).1.files = W ++ fs.files ∧
      ∀ pr ∈ W, ∃ page ∈ pages, pr.1 = outPath page := by
  obtain ⟨_, W, hW, hk⟩ := build_writes pages fs
  exact ⟨build_frame pages fs TEMPLATE_FILE (fun page _ => templatePath_ne_outPath page),
    fun q => build_frame pages fs (CONTENT_DIR ++ q)
      (fun page _ => contentPath_ne_outPath q page),
    W, hW, hk⟩
